import Mathlib

/-!
Shallow embedding of the wownow protocol parser (src/wownow/__main__.py).

Strings are embedded as lists of characters (`Str`).  Python's `str.split(sep)`
with a one-character separator is `splitOnChar`, `str.splitlines()` is
`splitlines`, `int(s)` is `pyIntParse` (ASCII digits, optional sign,
underscores between digits, surrounding ASCII whitespace stripped),
`bytes.fromhex` is `bytesFromHex` (ASCII whitespace skipped),
`int.bit_length()` is `bitLength`, and an f-string `{n:02d}` field is
`formatPad2`.  Python's `ValueError` (the spec's `FormatError`) is the
`Except.error` branch of `Except String`.
-/

namespace Wownow

/-- Characters of a Python string, in order. -/
abbrev Str := List Char

/-- Models Python `str.split(sep)` for a single-character separator:
splits on every occurrence, keeping empty segments, and the empty string
splits to one empty segment. -/
def splitOnChar (sep : Char) : Str → List Str
  | [] => [[]]
  | c :: cs =>
    match splitOnChar sep cs with
    | [] => [[c]]
    | r :: rs => if c = sep then [] :: r :: rs else (c :: r) :: rs

/-- Characters Python `str.splitlines()` treats as line boundaries
(the ASCII ones plus NEL, LS, PS); `\r\n` is handled as one boundary
in `splitlines` itself. -/
def isLineBreak (c : Char) : Bool :=
  c = '\n' || c = '\r' || c = '\x0b' || c = '\x0c' ||
  c = '\x1c' || c = '\x1d' || c = '\x1e' || c = '\x85' ||
  c = '\u2028' || c = '\u2029'

/-- Models Python `str.splitlines()`: `acc` is the current line, reversed.
A trailing line break produces no extra empty line, and the empty string
yields no lines at all. -/
def splitlinesGo : Str → Str → List Str
  | [], acc => if acc = [] then [] else [acc.reverse]
  | '\r' :: '\n' :: cs, acc => acc.reverse :: splitlinesGo cs []
  | c :: cs, acc =>
    if isLineBreak c then acc.reverse :: splitlinesGo cs []
    else splitlinesGo cs (c :: acc)

/-- Models Python `str.splitlines()`. -/
def splitlines (s : Str) : List Str := splitlinesGo s []

/-- ASCII whitespace as stripped by Python's `int()` (the model restricts
Python's Unicode whitespace to ASCII). -/
def isPySpace (c : Char) : Bool :=
  c = ' ' || c = '\t' || c = '\n' || c = '\r' || c = '\x0b' || c = '\x0c'

/-- Strip leading and trailing whitespace, as `int()` does before parsing. -/
def stripWs (s : Str) : Str :=
  ((s.dropWhile isPySpace).reverse.dropWhile isPySpace).reverse

/-- Scanner for the digit part of a Python integer literal: digits with
single underscores strictly between digits.  `needDigit` is true at the
start and right after an underscore. -/
def decLitScan : Str → Bool → Bool
  | [], needDigit => !needDigit
  | c :: rest, needDigit =>
    if c.isDigit then decLitScan rest false
    else if c = '_' then !needDigit && decLitScan rest true
    else false

/-- The digit part (after an optional sign) accepted by Python `int()`. -/
def decLiteralOk (s : Str) : Bool := decLitScan s true

/-- Numeric value of a digit string, ignoring underscores. -/
def digitsVal (s : Str) : Nat :=
  s.foldl (fun acc c => if c = '_' then acc else acc * 10 + (c.toNat - '0'.toNat)) 0

/-- Models Python `int(s)` on a string: strip whitespace, optional sign,
ASCII digits with underscores between digits; `none` models the
`ValueError` that `int()` raises otherwise. -/
def pyIntParse (s : Str) : Option Int :=
  match stripWs s with
  | '+' :: rest => if decLiteralOk rest then some (digitsVal rest) else none
  | '-' :: rest => if decLiteralOk rest then some (-(digitsVal rest : Int)) else none
  | t => if decLiteralOk t then some (digitsVal t) else none

/-- Value of one hexadecimal digit, if it is one. -/
def hexVal? (c : Char) : Option Nat :=
  if '0' ≤ c ∧ c ≤ '9' then some (c.toNat - '0'.toNat)
  else if 'a' ≤ c ∧ c ≤ 'f' then some (c.toNat - 'a'.toNat + 10)
  else if 'A' ≤ c ∧ c ≤ 'F' then some (c.toNat - 'A'.toNat + 10)
  else none

/-- Consume one hex-digit pair at a time, skipping ASCII whitespace
between pairs but not inside a pair; an odd digit count or a non-hex
character fails. -/
def fromHexCore : Str → Option (List Nat)
  | [] => some []
  | c :: cs =>
    if isPySpace c then fromHexCore cs
    else
      match cs with
      | [] => none
      | d :: cs2 =>
        match hexVal? c, hexVal? d, fromHexCore cs2 with
        | some hc, some hd, some bs => some ((16 * hc + hd) :: bs)
        | _, _, _ => none

/-- Models Python `bytes.fromhex(s)`: pairs of hex digits with ASCII
whitespace allowed around pairs, never splitting a pair. -/
def bytesFromHex (s : Str) : Option (List Nat) := fromHexCore s

/-- Fuel-driven core of `bitLength`; the fuel only bounds recursion depth. -/
def bitLengthAux : Nat → Nat → Nat
  | 0, _ => 0
  | fuel + 1, n => if n = 0 then 0 else bitLengthAux fuel (n / 2) + 1

/-- Models Python `int.bit_length()` on the absolute value: the number of
binary digits, with `bitLength 0 = 0`. -/
def bitLength (n : Nat) : Nat := bitLengthAux n n

/-- Digits of `n` in base ten, most significant first (fuel-driven). -/
def decDigitsAux : Nat → Nat → Str
  | 0, _ => []
  | fuel + 1, n =>
    if n < 10 then [Char.ofNat ('0'.toNat + n)]
    else decDigitsAux fuel (n / 10) ++ [Char.ofNat ('0'.toNat + n % 10)]

/-- Decimal rendering of a natural number. -/
def decDigits (n : Nat) : Str := decDigitsAux (n + 1) n

/-- Models the f-string field `{i:02d}`: minimum width two, zero padded,
the sign counted inside the width. -/
def formatPad2 (i : Int) : Str :=
  if i < 0 then
    let ds := decDigits i.natAbs
    '-' :: (List.replicate (1 - ds.length) '0' ++ ds)
  else
    let ds := decDigits i.natAbs
    List.replicate (2 - ds.length) '0' ++ ds

/-- Uppercase a string, as Python `str.upper()` does (ASCII scope). -/
def upper (s : Str) : Str := s.map Char.toUpper

/-- The `HeaderType` literal of the source: `STRING`, `HEX` or `DEC`. -/
inductive HeaderType where
  | STRING
  | HEX
  | DEC
deriving DecidableEq, Repr

/-- Models `is_header_type`: recognize one of the three type strings. -/
def toHeaderType? (s : Str) : Option HeaderType :=
  if s = "STRING".data then some .STRING
  else if s = "HEX".data then some .HEX
  else if s = "DEC".data then some .DEC
  else none

/-- The `Header` dataclass: column name, type and declared byte size.
`size_bytes` is an `Int` because `int()` accepts signed literals. -/
structure Header where
  name : Str
  type_ : HeaderType
  size_bytes : Int
deriving DecidableEq, Repr

/-- A decoded cell value: Python's `str`, `int`, `bytes` or `None`. -/
inductive Value where
  | str : Str → Value
  | int : Int → Value
  | bytes : List Nat → Value
  | absent : Value
deriving DecidableEq, Repr

/-- Models `Header.parse`: split on `!` into exactly two parts, split the
rest on `:` into exactly two parts, uppercase and recognize the type,
convert the size with `int()`.  A failed two-way unpack is Python's
`ValueError` from tuple unpacking. -/
def Header.parse (raw : Str) : Except String Header :=
  match splitOnChar '!' raw with
  | [name, rest] =>
    match splitOnChar ':' rest with
    | [type0, sizeStr] =>
      match toHeaderType? (upper type0) with
      | none => .error "Invalid header type"
      | some t =>
        match pyIntParse sizeStr with
        | none => .error "invalid literal for int() with base 10"
        | some n => .ok ⟨name, t, n⟩
    | _ => .error "unpack on colon failed"
  | _ => .error "unpack on bang failed"

/-- Models `parse_hex(s, header)`: empty cell is `None`; otherwise hex
decode and require exactly `size_bytes` bytes. -/
def parse_hex (s : Str) (h : Header) : Except String Value :=
  if s = [] then .ok .absent
  else
    match bytesFromHex s with
    | none => .error "non-hexadecimal number found in fromhex"
    | some value =>
      if (value.length : Int) ≠ h.size_bytes then
        .error "Expected size_bytes bytes"
      else .ok (.bytes value)

/-- Models `parse_string(s, header)`: the cell verbatim, size ignored. -/
def parse_string (s : Str) (_h : Header) : Except String Value :=
  .ok (.str s)

/-- Models `parse_dec(s, header)`: empty cell is `None`; otherwise `int()`
the cell and require its bit length to fit in `size_bytes * 8` bits. -/
def parse_dec (s : Str) (h : Header) : Except String Value :=
  if s = [] then .ok .absent
  else
    match pyIntParse s with
    | none => .error "invalid literal for int() with base 10"
    | some value =>
      if (bitLength value.natAbs : Int) > h.size_bytes * 8 then
        .error "Expected size_bytes * 8 bits"
      else .ok (.int value)

/-- Models `Header.parse_data`, the `data_parsers` dispatch on the header
type. -/
def Header.parse_data (h : Header) (raw : Str) : Except String Value :=
  match h.type_ with
  | .HEX => parse_hex raw h
  | .STRING => parse_string raw h
  | .DEC => parse_dec raw h

/-- Models a match of `seqn_pattern = ^## seqn = (\d+)$` followed by
`int(group(1))`: the line is the literal marker then one or more digits
(ASCII scope), and the digits give the sequence number. -/
def seqnMatch (line : Str) : Option Nat :=
  let marker := "## seqn = ".data
  if line.take marker.length = marker then
    let ds := line.drop marker.length
    if ds ≠ [] ∧ ds.all Char.isDigit then some (digitsVal ds) else none
  else none

/-- Map a fallible function over a list, stopping at the first error, as a
Python list comprehension or accumulating loop over code that raises. -/
def mapExcept (f : α → Except String β) : List α → Except String (List β)
  | [] => .ok []
  | a :: as =>
    match f a with
    | .error e => .error e
    | .ok b =>
      match mapExcept f as with
      | .error e => .error e
      | .ok bs => .ok (b :: bs)

/-- The `RibbitResponse` dataclass: sequence number, headers, raw rows. -/
structure RibbitResponse where
  sequence_number : Nat
  headers : List Header
  rows : List (List Str)
deriving DecidableEq, Repr

/-- Validation of one data row in `RibbitResponse.parse`: split on `|`
and require as many cells as headers. -/
def rowSplit (hlen : Nat) (row : Str) : Except String (List Str) :=
  let values := splitOnChar '|' row
  if values.length = hlen then .ok values else .error "Invalid data row"

/-- Body of `RibbitResponse.parse` after `splitlines`: unpack into header
row, sequence-number row and data rows (fewer than two lines is Python's
unpack `ValueError`), parse each `|`-separated header descriptor, match
the sequence-number row, then validate every data row's cell count. -/
def parseLines : List Str → Except String RibbitResponse
  | header_row :: seqn_row :: data_rows =>
    match mapExcept Header.parse (splitOnChar '|' header_row) with
    | .error e => .error e
    | .ok headers =>
      match seqnMatch seqn_row with
      | none => .error "Invalid sequence number row"
      | some sequence_number =>
        match mapExcept (rowSplit headers.length) data_rows with
        | .error e => .error e
        | .ok rows => .ok ⟨sequence_number, headers, rows⟩
  | _ => .error "unpack of lines failed"

/-- Models `RibbitResponse.parse`: `splitlines` on the raw body, then
`parseLines`. -/
def RibbitResponse.parse (raw : Str) : Except String RibbitResponse :=
  parseLines (splitlines raw)

/-- Index the dict comprehension `{h.name: i for i, h in enumerate(...)}`
assigns to a name: the index of the LAST header with that name, since a
later duplicate key overwrites an earlier one. -/
def lastIndexOfName (column : Str) : List Header → Option Nat
  | [] => none
  | h :: hs =>
    match lastIndexOfName column hs with
    | some i => some (i + 1)
    | none => if h.name = column then some 0 else none

/-- Models `RibbitResponse.get`: resolve the column name through the
`header_indices` dict (unknown name raises `ValueError`), then decode the
cell at that index of the requested row; an out-of-range index is
Python's `IndexError`. -/
def RibbitResponse.get (resp : RibbitResponse) (row : Nat) (column : Str) :
    Except String Value :=
  match lastIndexOfName column resp.headers with
  | none => .error "Invalid column name"
  | some col_index =>
    match resp.headers.get? col_index with
    | none => .error "IndexError: header"
    | some header =>
      match resp.rows.get? row with
      | none => .error "IndexError: row"
      | some r =>
        match r.get? col_index with
        | none => .error "IndexError: cell"
        | some raw_value => header.parse_data raw_value

/-- Models `RibbitResponse.get_columns`: the header names in order. -/
def RibbitResponse.get_columns (resp : RibbitResponse) : List Str :=
  resp.headers.map Header.name

/-- A Python dict built by assignment, as an insertion-ordered association
list with unique keys. -/
abbrev Dict := List (Str × Value)

/-- Models `d[k] = v` on a dict: replace in place if the key is present,
else append. -/
def dictInsert (k : Str) (v : Value) : Dict → Dict
  | [] => [(k, v)]
  | (k', v') :: d => if k' = k then (k', v) :: d else (k', v') :: dictInsert k v d

/-- Models `d[k]` lookup on a dict. -/
def dictLookup (k : Str) : Dict → Option Value
  | [] => none
  | (k', v) :: d => if k' = k then some v else dictLookup k d

/-- The inner loop of `get_all`: fill one row's dict, one header at a
time, via `self.get`. -/
def buildRowDict (resp : RibbitResponse) (row_index : Nat) :
    List Header → Dict → Except String Dict
  | [], d => .ok d
  | h :: hs, d =>
    match resp.get row_index h.name with
    | .error e => .error e
    | .ok v => buildRowDict resp row_index hs (dictInsert h.name v d)

/-- Models `RibbitResponse.get_all`: one dict per row index, keyed by
header name, each value produced by `self.get`. -/
def RibbitResponse.get_all (resp : RibbitResponse) : Except String (List Dict) :=
  mapExcept (fun row_index => buildRowDict resp row_index resp.headers [])
    (List.range resp.rows.length)

/-- The `BuildVersion` dataclass: the four dot-separated components kept
as strings. -/
structure BuildVersion where
  major : Str
  minor : Str
  patch : Str
  build : Str
deriving DecidableEq, Repr

/-- Models `BuildVersion.parse`: split on `.`; exactly four components or
`ValueError`. -/
def BuildVersion.parse (s : Str) : Except String BuildVersion :=
  match splitOnChar '.' s with
  | [major, minor, patch, build] => .ok ⟨major, minor, patch, build⟩
  | _ => .error "Invalid build version"

/-- Models the `version` property: major, minor, patch joined with dots. -/
def BuildVersion.version (b : BuildVersion) : Str :=
  b.major ++ '.' :: b.minor ++ '.' :: b.patch

/-- Models the `interface_version` property: `major` verbatim, then
`int(minor)` and `int(patch)` each rendered as `{n:02d}`; a component
`int()` cannot parse raises `ValueError`. -/
def BuildVersion.interface_version (b : BuildVersion) : Except String Str :=
  match pyIntParse b.minor, pyIntParse b.patch with
  | some m, some p => .ok (b.major ++ formatPad2 m ++ formatPad2 p)
  | _, _ => .error "invalid literal for int() with base 10"

/-- Decidable equality for `Except`, so concrete runs of the embedded
functions can be settled by `decide`. -/
instance {ε α : Type} [DecidableEq ε] [DecidableEq α] : DecidableEq (Except ε α)
  | .error e, .error f =>
    if h : e = f then .isTrue (congrArg Except.error h)
    else .isFalse (fun hh => h (Except.error.inj hh))
  | .error _, .ok _ => .isFalse (fun hh => Except.noConfusion hh)
  | .ok _, .error _ => .isFalse (fun hh => Except.noConfusion hh)
  | .ok a, .ok b =>
    if h : a = b then .isTrue (congrArg Except.ok h)
    else .isFalse (fun hh => h (Except.ok.inj hh))

/-! ## Helper lemmas -/

/-- Splitting never yields an empty list of segments. -/
theorem splitOnChar_ne_nil (sep : Char) (xs : Str) : splitOnChar sep xs ≠ [] := by
  cases xs with
  | nil => simp [splitOnChar]
  | cons c cs =>
    simp only [splitOnChar]
    cases splitOnChar sep cs with
    | nil => simp
    | cons r rs => by_cases hc : c = sep <;> simp [hc]

/-- A string without the separator splits to a single segment. -/
theorem splitOnChar_not_mem {sep : Char} {xs : Str} (h : sep ∉ xs) :
    splitOnChar sep xs = [xs] := by
  induction xs with
  | nil => rfl
  | cons c cs ih =>
    have hc : ¬(c = sep) := fun hcs => h (hcs ▸ List.mem_cons_self c cs)
    have hcs : sep ∉ cs := fun hm => h (List.mem_cons_of_mem c hm)
    simp [splitOnChar, ih hcs, hc]

/-- Splitting a string that starts with a separator-free segment peels off
that segment. -/
theorem splitOnChar_append {sep : Char} {xs : Str} (h : sep ∉ xs) (ys : Str) :
    splitOnChar sep (xs ++ sep :: ys) = xs :: splitOnChar sep ys := by
  induction xs with
  | nil =>
    obtain ⟨r, rs, hrs⟩ := List.exists_cons_of_ne_nil (splitOnChar_ne_nil sep ys)
    simp [splitOnChar, hrs]
  | cons c cs ih =>
    have hc : ¬(c = sep) := fun hcs => h (hcs ▸ List.mem_cons_self c cs)
    have hcs : sep ∉ cs := fun hm => h (List.mem_cons_of_mem c hm)
    simp [splitOnChar, ih hcs, hc]

/-- A successful `mapExcept` run has one output per input, each the
successful image of the input at the same position. -/
theorem mapExcept_ok_get {α β : Type} {f : α → Except String β} {l : List α} {bs : List β}
    (h : mapExcept f l = .ok bs) :
    bs.length = l.length ∧
      ∀ i (hi : i < l.length) (hi' : i < bs.length),
        f (l.get ⟨i, hi⟩) = .ok (bs.get ⟨i, hi'⟩) := by
  induction l generalizing bs with
  | nil =>
    simp only [mapExcept] at h
    cases h
    exact ⟨rfl, fun i hi => absurd hi (by simp)⟩
  | cons a as ih =>
    simp only [mapExcept] at h
    split at h
    · exact Except.noConfusion h
    next b hfa =>
      split at h
      · exact Except.noConfusion h
      next bs' hm =>
        obtain ⟨hlen, hget⟩ := ih hm
        cases h
        refine ⟨by simp [hlen], ?_⟩
        intro i hi hi'
        cases i with
        | zero => simpa using hfa
        | succ j => simpa using hget j (by simpa using hi) (by simpa using hi')

/-- When every element maps successfully to its image under `g`, the whole
`mapExcept` run is the plain map. -/
theorem mapExcept_map {α β : Type} {f : α → Except String β} {g : α → β} {l : List α}
    (h : ∀ a ∈ l, f a = .ok (g a)) : mapExcept f l = .ok (l.map g) := by
  induction l with
  | nil => rfl
  | cons a as ih =>
    have ha := h a (List.mem_cons_self a as)
    have has : ∀ x ∈ as, f x = .ok (g x) := fun x hx => h x (List.mem_cons_of_mem a hx)
    simp [mapExcept, ha, ih has]

/-- A single element that can only fail makes the whole `mapExcept` run
fail. -/
theorem mapExcept_error_of_mem {α β : Type} {f : α → Except String β} {l : List α} {a : α}
    (hmem : a ∈ l) (hbad : ∀ b, f a ≠ .ok b) : ∃ e, mapExcept f l = .error e := by
  induction l with
  | nil => cases hmem
  | cons x xs ih =>
    rcases List.mem_cons.mp hmem with rfl | hmem'
    · cases hfa : f a with
      | error e => exact ⟨e, by simp [mapExcept, hfa]⟩
      | ok b => exact absurd hfa (hbad b)
    · cases hfx : f x with
      | error e => exact ⟨e, by simp [mapExcept, hfx]⟩
      | ok b =>
        obtain ⟨e, he⟩ := ih hmem'
        exact ⟨e, by simp [mapExcept, hfx, he]⟩

/-- Looking up the key just inserted yields the inserted value. -/
theorem dictLookup_insert_same (k : Str) (v : Value) :
    ∀ d : Dict, dictLookup k (dictInsert k v d) = some v
  | [] => by simp [dictInsert, dictLookup]
  | (k', v') :: d => by
    by_cases h : k' = k
    · simp [dictInsert, dictLookup, h]
    · simp [dictInsert, dictLookup, h, dictLookup_insert_same k v d]

/-- Inserting one key leaves lookups of other keys unchanged. -/
theorem dictLookup_insert_other {k k' : Str} (hne : k' ≠ k) (v : Value) :
    ∀ d : Dict, dictLookup k' (dictInsert k v d) = dictLookup k' d
  | [] => by simp [dictInsert, dictLookup, Ne.symm hne]
  | (k0, v0) :: d => by
    by_cases h0 : k0 = k
    · have h1 : ¬(k0 = k') := fun hh => hne (hh ▸ h0)
      have h2 : ¬(k = k') := fun hh => hne hh.symm
      simp [dictInsert, dictLookup, h0, h2]
    · by_cases h1 : k0 = k'
      · simp [dictInsert, dictLookup, h0, h1, hne]
      · simp [dictInsert, dictLookup, h0, h1, dictLookup_insert_other hne v d]

/-- A successful run of the `get_all` inner loop stores, at every header
name it visits, the value `get` produces for that name, and leaves other
keys alone. -/
theorem buildRowDict_ok {resp : RibbitResponse} {i : Nat} :
    ∀ {hs : List Header} {d0 d : Dict}, buildRowDict resp i hs d0 = .ok d →
      (∀ h ∈ hs, ∃ v, resp.get i h.name = .ok v ∧ dictLookup h.name d = some v) ∧
      (∀ k, (∀ h ∈ hs, h.name ≠ k) → dictLookup k d = dictLookup k d0) := by
  intro hs
  induction hs with
  | nil =>
    intro d0 d h
    simp only [buildRowDict] at h
    cases h
    exact ⟨by simp, fun k _ => rfl⟩
  | cons h t ih =>
    intro d0 d hrun
    simp only [buildRowDict] at hrun
    split at hrun
    · exact Except.noConfusion hrun
    next v hv =>
      obtain ⟨ha, hb⟩ := ih hrun
      refine ⟨?_, ?_⟩
      · intro h' hmem
        rcases List.mem_cons.mp hmem with rfl | hmem'
        · by_cases hdup : ∃ h'' ∈ t, h''.name = h'.name
          · obtain ⟨h'', hmem'', hname''⟩ := hdup
            obtain ⟨v', hv', hl'⟩ := ha h'' hmem''
            exact ⟨v', by rwa [hname''] at hv', by rwa [hname''] at hl'⟩
          · push_neg at hdup
            refine ⟨v, hv, ?_⟩
            rw [hb h'.name hdup]
            exact dictLookup_insert_same h'.name v d0
        · exact ha h' hmem'
      · intro k hk
        rw [hb k (fun h' hm => hk h' (List.mem_cons_of_mem h hm))]
        exact dictLookup_insert_other (Ne.symm (hk h (List.mem_cons_self h t))) v d0

/-- No header carries the name exactly when the dict-comprehension index
is absent. -/
theorem lastIndexOfName_eq_none {col : Str} :
    ∀ {hs : List Header}, lastIndexOfName col hs = none ↔ ∀ h ∈ hs, h.name ≠ col
  | [] => by simp [lastIndexOfName]
  | h :: t => by
    simp only [lastIndexOfName]
    cases ht : lastIndexOfName col t with
    | some i =>
      constructor
      · intro hcontra; exact Option.noConfusion hcontra
      · intro hall
        have hn := lastIndexOfName_eq_none.mpr
          (fun h' hm => hall h' (List.mem_cons_of_mem h hm))
        rw [ht] at hn
        exact Option.noConfusion hn
    | none =>
      by_cases hn : h.name = col
      · rw [if_pos hn]
        constructor
        · intro hcontra; exact Option.noConfusion hcontra
        · intro hall; exact absurd hn (hall h (List.mem_cons_self h t))
      · rw [if_neg hn]
        constructor
        · intro _ h' hm
          rcases List.mem_cons.mp hm with rfl | hm'
          · exact hn
          · exact lastIndexOfName_eq_none.mp ht h' hm'
        · intro _; rfl

/-- The dict-comprehension index of a name is the position of its last
occurrence among the headers. -/
theorem lastIndexOfName_eq_some {col : Str} :
    ∀ {hs : List Header} {i : Nat} (hi : i < hs.length),
      (hs.get ⟨i, hi⟩).name = col →
      (∀ j (hj : j < hs.length), i < j → (hs.get ⟨j, hj⟩).name ≠ col) →
      lastIndexOfName col hs = some i := by
  intro hs
  induction hs with
  | nil => intro i hi; exact absurd hi (by simp)
  | cons h t ih =>
    intro i hi hname hlast
    cases i with
    | zero =>
      have hnone : lastIndexOfName col t = none := by
        rw [lastIndexOfName_eq_none]
        intro h' hmem' hc
        obtain ⟨⟨j, hj⟩, hget⟩ := List.mem_iff_get.mp hmem'
        rw [← hget] at hc
        exact hlast (j + 1) (Nat.succ_lt_succ hj) (Nat.succ_pos j) hc
      simp only [lastIndexOfName, hnone]
      rw [if_pos (show h.name = col from hname)]
    | succ i' =>
      have ht : lastIndexOfName col t = some i' := by
        refine ih (by simpa using hi) hname ?_
        intro j hj hij
        exact hlast (j + 1) (Nat.succ_lt_succ hj) (Nat.succ_lt_succ hij)
      simp [lastIndexOfName, ht]

/-- Once the column index is resolved and the row and cell exist, `get`
decodes that cell with that column's header. -/
theorem get_decodes_at {resp : RibbitResponse} {row : Nat} {column : Str} {i : Nat}
    (hli : lastIndexOfName column resp.headers = some i)
    (hih : i < resp.headers.length)
    {r : List Str} (hr : resp.rows.get? row = some r)
    {cell : Str} (hc : r.get? i = some cell) :
    resp.get row column = (resp.headers.get ⟨i, hih⟩).parse_data cell := by
  simp only [RibbitResponse.get, hli, List.get?_eq_get hih, hr, hc]

/-! ## Claims -/

/-- C2: for a DEC-typed header, an empty cell decodes to the absent value;
a cell that parses as a non-negative integer fails with a FormatError
exactly when the integer's bit length exceeds `size_bytes * 8`, and
otherwise decodes to that integer. -/
theorem parse_dec_spec (h : Header) (s : Str) (hdec : h.type_ = .DEC) :
    (s = [] → h.parse_data s = .ok .absent) ∧
    (∀ v : Int, pyIntParse s = some v → 0 ≤ v →
      (((bitLength v.natAbs : Int) > h.size_bytes * 8 → ∃ e, h.parse_data s = .error e) ∧
       ((bitLength v.natAbs : Int) ≤ h.size_bytes * 8 → h.parse_data s = .ok (.int v)))) := by
  unfold Header.parse_data
  rw [hdec]
  constructor
  · intro hs; simp [parse_dec, hs]
  · intro v hv _hnn
    by_cases hs : s = []
    · have hnone : pyIntParse ([] : Str) = none := rfl
      rw [hs, hnone] at hv
      exact Option.noConfusion hv
    · constructor
      · intro hgt
        exact ⟨"Expected size_bytes * 8 bits", by simp [parse_dec, hs, hv, hgt]⟩
      · intro hle
        simp [parse_dec, hs, hv, not_lt.mpr hle]

/-- C2 witness: with declared size 1, the cell "255" decodes to 255, the
cell "256" fails, and the empty cell is absent. -/
theorem parse_dec_spec_witness :
    Header.parse_data ⟨['n'], .DEC, 1⟩ ['2', '5', '5'] = .ok (.int 255) ∧
    (∃ e, Header.parse_data ⟨['n'], .DEC, 1⟩ ['2', '5', '6'] = .error e) ∧
    Header.parse_data ⟨['n'], .DEC, 1⟩ [] = .ok .absent :=
  ⟨((parse_dec_spec ⟨['n'], .DEC, 1⟩ ['2', '5', '5'] rfl).2 255
      (by decide) (by decide)).2 (by decide),
   ((parse_dec_spec ⟨['n'], .DEC, 1⟩ ['2', '5', '6'] rfl).2 256
      (by decide) (by decide)).1 (by decide),
   (parse_dec_spec ⟨['n'], .DEC, 1⟩ [] rfl).1 rfl⟩

/-- C5: for a HEX-typed header, an empty cell decodes to the absent value
(not an error); a non-empty cell that hex-decodes to a byte sequence
fails with a FormatError exactly when the decoded length differs from
`size_bytes`, and otherwise decodes to those bytes. -/
theorem parse_hex_spec (h : Header) (s : Str) (hhex : h.type_ = .HEX) :
    (s = [] → h.parse_data s = .ok .absent) ∧
    (s ≠ [] → ∀ bs, bytesFromHex s = some bs →
      (((bs.length : Int) ≠ h.size_bytes → ∃ e, h.parse_data s = .error e) ∧
       ((bs.length : Int) = h.size_bytes → h.parse_data s = .ok (.bytes bs)))) := by
  unfold Header.parse_data
  rw [hhex]
  constructor
  · intro hs; simp [parse_hex, hs]
  · intro hs bs hbs
    constructor
    · intro hne
      exact ⟨"Expected size_bytes bytes", by simp [parse_hex, hs, hbs, hne]⟩
    · intro heq; simp [parse_hex, hs, hbs, heq]

/-- C5 witness: with declared size 2, "0a0b" decodes to the bytes
`[0x0A, 0x0B]`, "0a" fails, and the empty cell is absent. -/
theorem parse_hex_spec_witness :
    Header.parse_data ⟨['h'], .HEX, 2⟩ ['0', 'a', '0', 'b'] = .ok (.bytes [10, 11]) ∧
    (∃ e, Header.parse_data ⟨['h'], .HEX, 2⟩ ['0', 'a'] = .error e) ∧
    Header.parse_data ⟨['h'], .HEX, 2⟩ [] = .ok .absent :=
  ⟨((parse_hex_spec ⟨['h'], .HEX, 2⟩ ['0', 'a', '0', 'b'] rfl).2 (by decide) [10, 11]
      (by decide)).2 (by decide),
   ((parse_hex_spec ⟨['h'], .HEX, 2⟩ ['0', 'a'] rfl).2 (by decide) [10]
      (by decide)).1 (by decide),
   (parse_hex_spec ⟨['h'], .HEX, 2⟩ [] rfl).1 rfl⟩

/-- C3: for a BuildVersion parsed from a four-component string, the
interface version is `major` as-is, then the integer value of `minor`
zero-padded to width 2, then the integer value of `patch` zero-padded to
width 2; it fails with a FormatError when `minor` or `patch` is not
integer-parseable. -/
theorem interface_version_spec (s : Str) (b : BuildVersion)
    (_hp : BuildVersion.parse s = .ok b) :
    (∀ m p : Int, pyIntParse b.minor = some m → pyIntParse b.patch = some p →
      b.interface_version = .ok (b.major ++ formatPad2 m ++ formatPad2 p)) ∧
    ((pyIntParse b.minor = none ∨ pyIntParse b.patch = none) →
      ∃ e, b.interface_version = .error e) := by
  constructor
  · intro m p hm hpp
    simp [BuildVersion.interface_version, hm, hpp]
  · intro hbad
    rcases hbad with hm | hpp
    · exact ⟨"invalid literal for int() with base 10",
        by simp [BuildVersion.interface_version, hm]⟩
    · cases hm : pyIntParse b.minor with
      | none => exact ⟨"invalid literal for int() with base 10",
          by simp [BuildVersion.interface_version, hm]⟩
      | some m => exact ⟨"invalid literal for int() with base 10",
          by simp [BuildVersion.interface_version, hm, hpp]⟩

/-- C3 witness: "10.2.5.12345" parses and its interface version is
"100205"; a version with a non-numeric minor fails. -/
theorem interface_version_spec_witness :
    BuildVersion.interface_version
      ⟨("10").data, ("2").data, ("5").data, ("12345").data⟩ = .ok ("100205").data ∧
    (∃ e, BuildVersion.interface_version
      ⟨("10").data, ("x").data, ("5").data, ("1").data⟩ = .error e) := by
  constructor
  · have h := (interface_version_spec ("10.2.5.12345").data
      ⟨("10").data, ("2").data, ("5").data, ("12345").data⟩ (by decide)).1
      2 5 (by decide) (by decide)
    rw [h]
    decide
  · exact (interface_version_spec ("10.x.5.1").data
      ⟨("10").data, ("x").data, ("5").data, ("1").data⟩ (by decide)).2
      (Or.inl (by decide))

/-- C9: BuildVersion.parse succeeds exactly when the input splits on `.`
into exactly four components, which become major, minor, patch and build
in order; any other component count is a FormatError. -/
theorem build_version_parse_spec :
    (∀ (s a b c d : Str), splitOnChar '.' s = [a, b, c, d] →
      BuildVersion.parse s = .ok ⟨a, b, c, d⟩) ∧
    (∀ s : Str, (splitOnChar '.' s).length ≠ 4 → ∃ e, BuildVersion.parse s = .error e) := by
  constructor
  · intro s a b c d hsp
    unfold BuildVersion.parse
    rw [hsp]
  · intro s hlen
    unfold BuildVersion.parse
    cases hsp : splitOnChar '.' s with
    | nil => exact ⟨_, rfl⟩
    | cons a l1 =>
      cases l1 with
      | nil => exact ⟨_, rfl⟩
      | cons b l2 =>
        cases l2 with
        | nil => exact ⟨_, rfl⟩
        | cons c l3 =>
          cases l3 with
          | nil => exact ⟨_, rfl⟩
          | cons d l4 =>
            cases l4 with
            | nil => rw [hsp] at hlen; simp at hlen
            | cons e l5 => exact ⟨_, rfl⟩

/-- C9 witness: "10.2.5.12345" parses into its four components, and
"1.2.3" (three components) fails. -/
theorem build_version_parse_spec_witness :
    BuildVersion.parse ("10.2.5.12345").data =
      .ok ⟨("10").data, ("2").data, ("5").data, ("12345").data⟩ ∧
    (∃ e, BuildVersion.parse ("1.2.3").data = .error e) :=
  ⟨build_version_parse_spec.1 ("10.2.5.12345").data _ _ _ _ (by decide),
   build_version_parse_spec.2 ("1.2.3").data (by decide)⟩

/-- C10: a body with fewer than two lines (the empty string included)
never parses: RibbitResponse.parse fails with an error, and any
successful parse had at least a header line and a sequence-number line. -/
theorem parse_requires_two_lines :
    (∀ raw : Str, (splitlines raw).length < 2 → ∃ e, RibbitResponse.parse raw = .error e) ∧
    (∀ (raw : Str) (resp : RibbitResponse), RibbitResponse.parse raw = .ok resp →
      2 ≤ (splitlines raw).length) := by
  constructor
  · intro raw hlen
    unfold RibbitResponse.parse
    cases hsp : splitlines raw with
    | nil => exact ⟨_, rfl⟩
    | cons h t =>
      cases t with
      | nil => exact ⟨_, rfl⟩
      | cons s ds =>
        rw [hsp] at hlen
        simp only [List.length_cons] at hlen
        omega
  · intro raw resp hok
    unfold RibbitResponse.parse at hok
    cases hsp : splitlines raw with
    | nil => rw [hsp] at hok; exact Except.noConfusion hok
    | cons h t =>
      cases t with
      | nil => rw [hsp] at hok; exact Except.noConfusion hok
      | cons s ds => simp

/-- C10 witness: the empty body fails to parse. -/
theorem parse_requires_two_lines_witness :
    ∃ e, RibbitResponse.parse [] = .error e :=
  parse_requires_two_lines.1 [] (by decide)

/-- C4: a descriptor `name!TYPE:size` with separator-free parts, a
recognized TYPE up to letter case and an `int()`-parseable size parses to
a Header with that name, the upper-cased type and that size; a descriptor
missing `!`, missing `:`, with an unrecognized TYPE or with a
non-numeric size fails with a FormatError. -/
theorem header_parse_spec :
    (∀ (name type0 size : Str) (t : HeaderType) (n : Int),
      '!' ∉ name → '!' ∉ type0 → ':' ∉ type0 → '!' ∉ size → ':' ∉ size →
      toHeaderType? (upper type0) = some t → pyIntParse size = some n →
      Header.parse (name ++ '!' :: (type0 ++ ':' :: size)) = .ok ⟨name, t, n⟩) ∧
    (∀ raw : Str, '!' ∉ raw → ∃ e, Header.parse raw = .error e) ∧
    (∀ (name rest : Str), '!' ∉ name → '!' ∉ rest → ':' ∉ rest →
      ∃ e, Header.parse (name ++ '!' :: rest) = .error e) ∧
    (∀ (name type0 size : Str),
      '!' ∉ name → '!' ∉ type0 → ':' ∉ type0 → '!' ∉ size → ':' ∉ size →
      toHeaderType? (upper type0) = none →
      ∃ e, Header.parse (name ++ '!' :: (type0 ++ ':' :: size)) = .error e) ∧
    (∀ (name type0 size : Str),
      '!' ∉ name → '!' ∉ type0 → ':' ∉ type0 → '!' ∉ size → ':' ∉ size →
      pyIntParse size = none →
      ∃ e, Header.parse (name ++ '!' :: (type0 ++ ':' :: size)) = .error e) := by
  have hrest : ∀ (type0 size : Str), '!' ∉ type0 → '!' ∉ size →
      '!' ∉ type0 ++ ':' :: size := by
    intro type0 size h2 h3 hmem
    rcases List.mem_append.mp hmem with hA | hB
    · exact h2 hA
    · rcases List.mem_cons.mp hB with heq | hC
      · exact absurd heq (by decide)
      · exact h3 hC
  have hsp1 : ∀ (name type0 size : Str), '!' ∉ name → '!' ∉ type0 → '!' ∉ size →
      splitOnChar '!' (name ++ '!' :: (type0 ++ ':' :: size)) =
        [name, type0 ++ ':' :: size] := by
    intro name type0 size h1 h2 h3
    rw [splitOnChar_append h1, splitOnChar_not_mem (hrest type0 size h2 h3)]
  have hsp2 : ∀ (type0 size : Str), ':' ∉ type0 → ':' ∉ size →
      splitOnChar ':' (type0 ++ ':' :: size) = [type0, size] := by
    intro type0 size h2 h3
    rw [splitOnChar_append h2, splitOnChar_not_mem h3]
  refine ⟨?_, ?_, ?_, ?_, ?_⟩
  · intro name type0 size t n h1 h2 h3 h4 h5 ht hn
    simp only [Header.parse, hsp1 name type0 size h1 h2 h4, hsp2 type0 size h3 h5, ht, hn]
  · intro raw hraw
    unfold Header.parse
    rw [splitOnChar_not_mem hraw]
    exact ⟨_, rfl⟩
  · intro name rest h1 h2 h3
    simp only [Header.parse, splitOnChar_append h1, splitOnChar_not_mem h2,
      splitOnChar_not_mem h3]
    exact ⟨_, rfl⟩
  · intro name type0 size h1 h2 h3 h4 h5 ht
    simp only [Header.parse, hsp1 name type0 size h1 h2 h4, hsp2 type0 size h3 h5, ht]
    exact ⟨_, rfl⟩
  · intro name type0 size h1 h2 h3 h4 h5 hn
    simp only [Header.parse, hsp1 name type0 size h1 h2 h4, hsp2 type0 size h3 h5, hn]
    cases ht : toHeaderType? (upper type0) with
    | none => exact ⟨_, rfl⟩
    | some t => simp only [ht]; exact ⟨_, rfl⟩

/-- C4 witness: "Region!string:0" parses to name "Region", type STRING
(case-normalized) and size 0; "RegionSTRING:0" (no `!`), "Region!STRING0"
(no `:`), "Region!FOO:0" (unknown type) and "Region!STRING:x" (bad size)
fail. -/
theorem header_parse_spec_witness :
    Header.parse ("Region!string:0").data = .ok ⟨("Region").data, .STRING, 0⟩ ∧
    (∃ e, Header.parse ("RegionSTRING:0").data = .error e) ∧
    (∃ e, Header.parse ("Region!STRING0").data = .error e) ∧
    (∃ e, Header.parse ("Region!FOO:0").data = .error e) ∧
    (∃ e, Header.parse ("Region!STRING:x").data = .error e) :=
  ⟨header_parse_spec.1 ("Region").data ("string").data ("0").data .STRING 0
      (by decide) (by decide) (by decide) (by decide) (by decide) (by decide) (by decide),
   header_parse_spec.2.1 ("RegionSTRING:0").data (by decide),
   header_parse_spec.2.2.1 ("Region").data ("STRING0").data
      (by decide) (by decide) (by decide),
   header_parse_spec.2.2.2.1 ("Region").data ("FOO").data ("0").data
      (by decide) (by decide) (by decide) (by decide) (by decide) (by decide),
   header_parse_spec.2.2.2.2 ("Region").data ("STRING").data ("x").data
      (by decide) (by decide) (by decide) (by decide) (by decide) (by decide)⟩

/-- C6: when a body has at least two lines, a successful parse reads the
sequence number from the second line exactly when that line matches
`## seqn = (digits)`, the digits becoming the sequence number; when the
line does not match, parse fails with a FormatError. -/
theorem parse_seqn_spec (raw h s : Str) (ds : List Str)
    (hsplit : splitlines raw = h :: s :: ds) :
    (seqnMatch s = none → ∃ e, RibbitResponse.parse raw = .error e) ∧
    (∀ n, seqnMatch s = some n → ∀ resp, RibbitResponse.parse raw = .ok resp →
      resp.sequence_number = n) ∧
    (∀ n, seqnMatch s = some n → ∀ headers,
      mapExcept Header.parse (splitOnChar '|' h) = .ok headers →
      (∀ row ∈ ds, (splitOnChar '|' row).length = headers.length) →
      RibbitResponse.parse raw = .ok ⟨n, headers, ds.map (splitOnChar '|')⟩) := by
  unfold RibbitResponse.parse
  rw [hsplit]
  refine ⟨?_, ?_, ?_⟩
  · intro hn
    cases hm : mapExcept Header.parse (splitOnChar '|' h) with
    | error e => exact ⟨e, by simp [parseLines, hm]⟩
    | ok headers =>
      exact ⟨"Invalid sequence number row", by simp [parseLines, hm, hn]⟩
  · intro n hn resp hok
    simp only [parseLines] at hok
    split at hok
    · exact Except.noConfusion hok
    next headers hm =>
      simp only [hn] at hok
      split at hok
      · exact Except.noConfusion hok
      next rows hrows =>
        cases hok
        rfl
  · intro n hn headers hm hrows
    have hmap : mapExcept (rowSplit headers.length) ds = .ok (ds.map (splitOnChar '|')) :=
      mapExcept_map (fun row hrow => by simp [rowSplit, hrows row hrow])
    simp [parseLines, hm, hn, hmap]

/-- C6 witness: a well-formed two-column body with seqn row
"## seqn = 12345" parses with sequence number 12345, and the same body
with a malformed seqn row fails. -/
theorem parse_seqn_spec_witness :
    (RibbitResponse.parse ("a!STRING:0\n## seqn = 12345\nus").data =
      .ok ⟨12345, [⟨['a'], .STRING, 0⟩], [[("us").data]]⟩) ∧
    (∃ e, RibbitResponse.parse ("a!STRING:0\nseqn 12345\nus").data = .error e) := by
  constructor
  · have h := (parse_seqn_spec ("a!STRING:0\n## seqn = 12345\nus").data
      ("a!STRING:0").data ("## seqn = 12345").data [("us").data] (by decide)).2.2
      12345 (by decide) [⟨['a'], .STRING, 0⟩] (by decide) (by decide)
    exact h.trans (by decide)
  · exact (parse_seqn_spec ("a!STRING:0\nseqn 12345\nus").data
      ("a!STRING:0").data ("seqn 12345").data [("us").data] (by decide)).1 (by decide)

/-- C7: with a valid header row and sequence-number row, parse fails with
a FormatError when some data row's `|`-split cell count differs from the
header count, and succeeds retaining every row's cells in order when all
counts match. -/
theorem parse_rows_spec (raw h s : Str) (ds : List Str)
    (hsplit : splitlines raw = h :: s :: ds) (headers : List Header)
    (hheaders : mapExcept Header.parse (splitOnChar '|' h) = .ok headers)
    (n : Nat) (hseqn : seqnMatch s = some n) :
    ((∃ row ∈ ds, (splitOnChar '|' row).length ≠ headers.length) →
      ∃ e, RibbitResponse.parse raw = .error e) ∧
    ((∀ row ∈ ds, (splitOnChar '|' row).length = headers.length) →
      RibbitResponse.parse raw = .ok ⟨n, headers, ds.map (splitOnChar '|')⟩) := by
  unfold RibbitResponse.parse
  rw [hsplit]
  constructor
  · rintro ⟨row, hrow, hbad⟩
    obtain ⟨e, he⟩ := mapExcept_error_of_mem (f := rowSplit headers.length) hrow
      (fun b hok => by simp [rowSplit, hbad] at hok)
    exact ⟨e, by simp [parseLines, hheaders, hseqn, he]⟩
  · intro hrows
    have hmap : mapExcept (rowSplit headers.length) ds = .ok (ds.map (splitOnChar '|')) :=
      mapExcept_map (fun row hrow => by simp [rowSplit, hrows row hrow])
    simp [parseLines, hheaders, hseqn, hmap]

/-- C7 witness: a two-header body whose data row has two cells parses
with that row retained; the same body with a one-cell data row fails. -/
theorem parse_rows_spec_witness :
    (RibbitResponse.parse ("a!STRING:0|b!STRING:0\n## seqn = 1\nx|y").data =
      .ok ⟨1, [⟨['a'], .STRING, 0⟩, ⟨['b'], .STRING, 0⟩], [[['x'], ['y']]]⟩) ∧
    (∃ e, RibbitResponse.parse ("a!STRING:0|b!STRING:0\n## seqn = 1\nx").data =
      .error e) := by
  constructor
  · have h := (parse_rows_spec ("a!STRING:0|b!STRING:0\n## seqn = 1\nx|y").data
      ("a!STRING:0|b!STRING:0").data ("## seqn = 1").data [("x|y").data] (by decide)
      [⟨['a'], .STRING, 0⟩, ⟨['b'], .STRING, 0⟩] (by decide) 1 (by decide)).2
      (by decide)
    exact h.trans (by decide)
  · exact (parse_rows_spec ("a!STRING:0|b!STRING:0\n## seqn = 1\nx").data
      ("a!STRING:0|b!STRING:0").data ("## seqn = 1").data [("x").data] (by decide)
      [⟨['a'], .STRING, 0⟩, ⟨['b'], .STRING, 0⟩] (by decide) 1 (by decide)).1
      ⟨("x").data, by decide, by decide⟩

/-- C8: a successful get_all returns one mapping per data row, in order,
and for every row index and header name the value stored at that name in
that row's mapping is exactly what `get` returns for them. -/
theorem get_all_spec (resp : RibbitResponse) (ms : List Dict)
    (hok : resp.get_all = .ok ms) :
    ms.length = resp.rows.length ∧
    ∀ i (hi : i < ms.length) (h : Header), h ∈ resp.headers →
      ∃ v, resp.get i h.name = .ok v ∧ dictLookup h.name (ms.get ⟨i, hi⟩) = some v := by
  unfold RibbitResponse.get_all at hok
  obtain ⟨hlen, hget⟩ := mapExcept_ok_get hok
  have hlen' : ms.length = resp.rows.length := by simpa using hlen
  refine ⟨hlen', ?_⟩
  intro i hi h hmem
  have hir : i < resp.rows.length := hlen' ▸ hi
  have hi2 : i < (List.range resp.rows.length).length := by simpa using hir
  have hrun := hget i hi2 hi
  rw [List.get_range] at hrun
  obtain ⟨ha, _⟩ := buildRowDict_ok hrun
  exact ha h hmem

/-- C8 witness: on a concrete two-column response with one row, get_all
returns one mapping whose entries agree with `get`. -/
theorem get_all_spec_witness :
    ∃ v, (RibbitResponse.mk 12345
        [⟨("Region").data, .STRING, 0⟩, ⟨("VersionsName").data, .STRING, 0⟩]
        [[("us").data, ("10.2.5.12345").data]]).get 0 ("Region").data = .ok v ∧
      dictLookup ("Region").data
        ([[(("Region").data, Value.str ("us").data),
           (("VersionsName").data, Value.str ("10.2.5.12345").data)]].get
          ⟨0, by decide⟩) = some v :=
  (get_all_spec
    ⟨12345, [⟨("Region").data, .STRING, 0⟩, ⟨("VersionsName").data, .STRING, 0⟩],
     [[("us").data, ("10.2.5.12345").data]]⟩
    [[(("Region").data, Value.str ("us").data),
      (("VersionsName").data, Value.str ("10.2.5.12345").data)]]
    (by decide)).2 0 (by decide) ⟨("Region").data, .STRING, 0⟩ (by decide)

/-- C1 (counterexample): with duplicate header names `A!STRING:0|A!DEC:1`
and the row `x|5`, the claim predicts `get(0, "A")` decodes cell "x" with
the first header (value the string "x"), but the code returns the integer
5, decoded at the LAST header with that name. -/
theorem get_first_match_counterexample :
    RibbitResponse.parse ("A!STRING:0|A!DEC:1\n## seqn = 7\nx|5").data =
      .ok ⟨7, [⟨['A'], .STRING, 0⟩, ⟨['A'], .DEC, 1⟩], [[['x'], ['5']]]⟩ ∧
    (RibbitResponse.mk 7 [⟨['A'], .STRING, 0⟩, ⟨['A'], .DEC, 1⟩]
      [[['x'], ['5']]]).get 0 ['A'] = .ok (.int 5) ∧
    Header.parse_data ⟨['A'], .STRING, 0⟩ ['x'] = .ok (.str ['x']) ∧
    Value.int 5 ≠ Value.str ['x'] := by
  refine ⟨by decide, by decide, by decide, by decide⟩

/-- C1 (amended): get resolves a duplicated column name to the LAST
header carrying that name (later dict-comprehension entries overwrite
earlier ones) and decodes the requested row's cell at that index. -/
theorem get_resolves_last_match (resp : RibbitResponse) (row : Nat) (column : Str)
    (i : Nat) (hih : i < resp.headers.length)
    (hname : (resp.headers.get ⟨i, hih⟩).name = column)
    (hlast : ∀ j (hj : j < resp.headers.length), i < j →
      (resp.headers.get ⟨j, hj⟩).name ≠ column)
    (r : List Str) (hr : resp.rows.get? row = some r)
    (cell : Str) (hc : r.get? i = some cell) :
    resp.get row column = (resp.headers.get ⟨i, hih⟩).parse_data cell :=
  get_decodes_at (lastIndexOfName_eq_some hih hname hlast) hih hr hc

/-- C1 witness: on the duplicate-name response, `get` decodes the second
cell with the second (DEC) header. -/
theorem get_resolves_last_match_witness :
    (RibbitResponse.mk 7 [⟨['A'], .STRING, 0⟩, ⟨['A'], .DEC, 1⟩]
      [[['x'], ['5']]]).get 0 ['A'] = Header.parse_data ⟨['A'], .DEC, 1⟩ ['5'] :=
  get_resolves_last_match
    ⟨7, [⟨['A'], .STRING, 0⟩, ⟨['A'], .DEC, 1⟩], [[['x'], ['5']]]⟩ 0 ['A'] 1
    (by decide) (by decide) (fun j hj hij => False.elim (by simp at hj; omega))
    [['x'], ['5']] (by decide) ['5'] (by decide)

end Wownow
